import Mathlib

/-!
Verification development for the `wavers` WAV reading/writing library.

The byte-level layer models the file produced by `write` (src/lib.rs) and the
container parser described by the specification (the crate modules
`header.rs`, `core.rs`, `conversion.rs`, `error.rs` are not part of the
sources under verification, so their behaviour is modelled from the
specification, as flagged in the individual doc comments).  Machine integers
are modelled as `Nat` with explicit `% 2^w` where wrap-around matters; a byte
is a `Nat` (kept below 256 by construction of the serializers).
-/

/-- Little-endian serialization of a natural number into `w` bytes
(the value is taken modulo `256^w`, matching an `as uN` cast in Rust). -/
def leBytes : Nat → Nat → List Nat
  | 0, _ => []
  | w + 1, x => x % 256 :: leBytes w (x / 256)

/-- Little-endian interpretation of a byte list as a natural number. -/
def leDecode : List Nat → Nat
  | [] => 0
  | b :: bs => b + 256 * leDecode bs

theorem leBytes_length (w x : Nat) : (leBytes w x).length = w := by
  induction w generalizing x with
  | zero => rfl
  | succ w ih => simp [leBytes, ih]

theorem leDecode_leBytes (w x : Nat) : leDecode (leBytes w x) = x % 256 ^ w := by
  induction w generalizing x with
  | zero => simp [leBytes, leDecode, Nat.mod_one]
  | succ w ih =>
      have h : 256 ^ (w + 1) = 256 * 256 ^ w := by ring
      simp [leBytes, leDecode, ih, h, Nat.mod_mul]

theorem leDecode_leBytes_of_lt {w x : Nat} (h : x < 256 ^ w) :
    leDecode (leBytes w x) = x := by
  rw [leDecode_leBytes, Nat.mod_eq_of_lt h]

theorem take_append_exact {α : Type} {l₁ : List α} (l₂ : List α) {n : Nat}
    (h : l₁.length = n) : (l₁ ++ l₂).take n = l₁ := by
  subst h
  induction l₁ with
  | nil => simp
  | cons a t ih => simp [ih]

theorem drop_append_exact {α : Type} {l₁ : List α} (l₂ : List α) {n : Nat}
    (h : l₁.length = n) : (l₁ ++ l₂).drop n = l₂ := by
  subst h
  induction l₁ with
  | nil => simp
  | cons a t ih => simp [ih]

theorem drop_append_plus {α : Type} {l₁ : List α} (l₂ : List α) {n m : Nat}
    (h : l₁.length = n) : (l₁ ++ l₂).drop (n + m) = l₂.drop m := by
  subst h
  induction l₁ with
  | nil => simp
  | cons a t ih => simpa only [List.cons_append, List.length_cons, Nat.succ_add, List.drop_succ_cons] using ih

/-- The four sample kinds supported by the crate (`WavType`, modulo the
signedness/width tags): `i16`, `i32`, `f32`, `f64`. -/
inductive WavType : Type
  | i16
  | i32
  | f32
  | f64
deriving DecidableEq

/-- Byte width of one sample of the given kind (`size_of::<T>()`). -/
def WavType.width : WavType → Nat
  | .i16 => 2
  | .i32 => 4
  | .f32 => 4
  | .f64 => 8

theorem WavType.width_pos (k : WavType) : 0 < k.width := by
  cases k <;> simp [WavType.width]

/-- Modelled from the spec: `Samples::as_bytes` views a buffer of kind `T` as
the raw byte sequence of length `count * width T` (§4.2 byte-level
reinterpretation; §6 fixes the on-disk sample encoding as little-endian).
A sample is represented by its stored bit pattern, a `Nat` below
`2^(8*width)`. -/
def samplesBytesW (w : Nat) : List Nat → List Nat
  | [] => []
  | x :: xs => leBytes w x ++ samplesBytesW w xs

/-- Byte view of a sample buffer of kind `k` (see `samplesBytesW`). -/
def samplesAsBytes (k : WavType) (l : List Nat) : List Nat :=
  samplesBytesW k.width l

theorem samplesBytesW_length (w : Nat) (l : List Nat) :
    (samplesBytesW w l).length = l.length * w := by
  induction l with
  | nil => simp [samplesBytesW]
  | cons x xs ih => simp [samplesBytesW, ih, leBytes_length, Nat.succ_mul, Nat.add_comm]

theorem samplesAsBytes_length (k : WavType) (l : List Nat) :
    (samplesAsBytes k l).length = l.length * k.width := by
  simp [samplesAsBytes, samplesBytesW_length]

/-- Fuel-indexed decoder of a byte stream into `w`-byte little-endian
samples; the fuel only serves to make the recursion structural. -/
def samplesOfBytesFuel (w : Nat) : Nat → List Nat → List Nat
  | 0, _ => []
  | _ + 1, [] => []
  | f + 1, b :: bs => leDecode ((b :: bs).take w) :: samplesOfBytesFuel w f ((b :: bs).drop w)

/-- Modelled from the spec: reconstructing a typed buffer from raw bytes when
the encoding kind is known (§4.2): split into `w`-byte groups, little-endian
decode each. -/
def samplesOfBytes (w : Nat) (bs : List Nat) : List Nat :=
  samplesOfBytesFuel w bs.length bs

theorem samplesOfBytesFuel_roundtrip (w : Nat) (hw : 0 < w) (l : List Nat)
    (h : ∀ x ∈ l, x < 256 ^ w) :
    ∀ f, (samplesBytesW w l).length ≤ f → samplesOfBytesFuel w f (samplesBytesW w l) = l := by
  induction l with
  | nil =>
      intro f _
      cases f <;> simp [samplesBytesW, samplesOfBytesFuel]
  | cons x xs ih =>
      intro f hf
      obtain ⟨v, hv⟩ : ∃ v, w = v + 1 := ⟨w - 1, by omega⟩
      have hlen : (samplesBytesW w (x :: xs)).length = w + (samplesBytesW w xs).length := by
        simp [samplesBytesW, leBytes_length]
      obtain ⟨f', hf'⟩ : ∃ f', f = f' + 1 := ⟨f - 1, by omega⟩
      have hbytes : samplesBytesW w (x :: xs)
          = x % 256 :: (leBytes v (x / 256) ++ samplesBytesW w xs) := by
        simp [samplesBytesW, hv, leBytes]
      have htail : (leBytes v (x / 256)).length = v := leBytes_length v _
      have htake : (x % 256 :: (leBytes v (x / 256) ++ samplesBytesW w xs)).take w
          = leBytes w x := by
        simp only [hv, List.take_succ_cons, leBytes]
        rw [take_append_exact _ htail]
      have hdrop : (x % 256 :: (leBytes v (x / 256) ++ samplesBytesW w xs)).drop w
          = samplesBytesW w xs := by
        simp only [hv, List.drop_succ_cons]
        rw [drop_append_exact _ htail]
      rw [hf', hbytes]
      simp only [samplesOfBytesFuel, htake, hdrop]
      have hx : leDecode (leBytes w x) = x := leDecode_leBytes_of_lt (h x (by simp))
      rw [hx, ih (fun y hy => h y (by simp [hy])) f' (by omega)]

theorem samplesOfBytes_samplesAsBytes (k : WavType) (l : List Nat)
    (h : ∀ x ∈ l, x < 256 ^ k.width) :
    samplesOfBytes k.width (samplesAsBytes k l) = l :=
  samplesOfBytesFuel_roundtrip k.width k.width_pos l h _ (Nat.le_refl _)

/-- ASCII bytes of the chunk id "data" (the `DATA` constant written at
src/lib.rs:228). -/
def DATA : List Nat := [100, 97, 116, 97]

/-- ASCII bytes of "RIFF". -/
def RIFFID : List Nat := [82, 73, 70, 70]

/-- ASCII bytes of "WAVE". -/
def WAVEID : List Nat := [87, 65, 86, 69]

/-- ASCII bytes of "fmt ". -/
def FMTID : List Nat := [102, 109, 116, 32]

/-- WAVE format code written for the kind: 1 (PCM) for integer kinds,
3 (IEEE float) for float kinds. -/
def WavType.formatCode : WavType → Nat
  | .i16 => 1
  | .i32 => 1
  | .f32 => 3
  | .f64 => 3

/-- Native-endian serialization of a `u32`, as produced by
`u32::to_ne_bytes` at src/lib.rs:230: little-endian byte order on
little-endian platforms, the reverse on big-endian platforms.  The platform
byte order is the explicit parameter `bigEndian`. -/
def u32ToNeBytes (bigEndian : Bool) (n : Nat) : List Nat :=
  if bigEndian then (leBytes 4 n).reverse else leBytes 4 n

/-- Native-endian interpretation of a 4-byte list. -/
def decodeNe (bigEndian : Bool) (bs : List Nat) : Nat :=
  leDecode (if bigEndian then bs.reverse else bs)

theorem u32ToNeBytes_length (be : Bool) (n : Nat) : (u32ToNeBytes be n).length = 4 := by
  cases be <;> simp [u32ToNeBytes, leBytes_length]

theorem decodeNe_u32ToNeBytes (be : Bool) (n : Nat) :
    decodeNe be (u32ToNeBytes be n) = n % 2 ^ 32 := by
  have h : (256 : Nat) ^ 4 = 2 ^ 32 := by norm_num
  cases be <;> simp [u32ToNeBytes, decodeNe, leDecode_leBytes, h]

/-- Modelled from the spec: the 16-byte body of the "fmt " chunk that
`WavHeader::new_header::<T>` builds for sample kind `k` (§4.3 Write, §6):
format code, channel count, sample rate, byte rate = rate × block align,
block align = channels × width, bits per sample — all little-endian. -/
def fmtChunkBytes (k : WavType) (sr nc : Nat) : List Nat :=
  leBytes 2 k.formatCode ++
    (leBytes 2 nc ++
      (leBytes 4 sr ++
        (leBytes 4 (sr * (nc * k.width)) ++
          (leBytes 2 (nc * k.width) ++ leBytes 2 (8 * k.width)))))

/-- Modelled from the spec: the serialized RIFF+WAVE+fmt header returned by
`WavHeader::as_bytes` for a header built by
`WavHeader::new_header::<T>(sample_rate, n_channels, n_samples)`
(src/lib.rs:224-225): RIFF magic, informational container size, WAVE magic,
"fmt " chunk header with size 16, and the 16-byte format body. -/
def headerBytes (k : WavType) (sr nc nSamples : Nat) : List Nat :=
  RIFFID ++
    (leBytes 4 (36 + nSamples * k.width) ++
      (WAVEID ++
        (FMTID ++ (leBytes 4 16 ++ fmtChunkBytes k sr nc))))

/-- The byte content of the file produced by a fully successful `write`
(src/lib.rs:204-233): header bytes, then `DATA`, then the payload byte
length as a `u32` in native byte order (`to_ne_bytes`, src/lib.rs:229-230),
then the raw sample bytes. -/
def writeFileBytes (be : Bool) (k : WavType) (samples : List Nat) (sr nc : Nat) : List Nat :=
  headerBytes k sr nc samples.length ++
    (DATA ++
      (u32ToNeBytes be (samplesAsBytes k samples).length ++ samplesAsBytes k samples))

/-- Typed error taxonomy of the crate (`WaversError`, modelled from spec §7;
`error.rs` is not under the verified sources). -/
inductive ChunkKind : Type
  | fmt
  | data
deriving DecidableEq

inductive WaversError : Type
  | ioFailure
  | invalidContainer
  | missingChunk (c : ChunkKind)
  | unsupportedFormat
  | malformedChunk
deriving DecidableEq

/-- Outcome oracle for the effectful steps of `write`: whether
`WavHeader::new_header` succeeds (its failure condition lives in the missing
`header.rs`, so it is abstracted to a flag), whether `File::create`
succeeds, and whether the `i`-th of the four `write_all` calls succeeds. -/
structure WriteEnv : Type where
  hdrOk : Bool
  createOk : Bool
  wOk : Nat → Bool

/-- The environment in which every step succeeds. -/
def WriteEnv.allOk : WriteEnv := ⟨true, true, fun _ => true⟩

/-- Shallow embedding of `write` (src/lib.rs:204-233).  The filesystem state
for the target path is `Option (List Nat)`: `none` when the file does not
exist, `some c` when it exists with content `c`.  Step order follows the
source: `Samples::as_bytes` (pure), `WavHeader::new_header` (fallible, no
filesystem effect), `File::create` (truncates to empty), then four
`write_all` calls appending header bytes, `DATA`, the native-endian size
field, and the sample bytes.  A failing step returns the typed error and
leaves the state reached so far. -/
def write (env : WriteEnv) (be : Bool) (k : WavType) (samples : List Nat) (sr nc : Nat)
    (fs : Option (List Nat)) : Except WaversError Unit × Option (List Nat) :=
  let samplesBytes := samplesAsBytes k samples
  if env.hdrOk = false then (.error .unsupportedFormat, fs)
  else
    let headerB := headerBytes k sr nc samples.length
    if env.createOk = false then (.error .ioFailure, fs)
    else
      if env.wOk 0 = false then (.error .ioFailure, some [])
      else
        let c1 := [] ++ headerB
        if env.wOk 1 = false then (.error .ioFailure, some c1)
        else
          let c2 := c1 ++ DATA
          if env.wOk 2 = false then (.error .ioFailure, some c2)
          else
            let c3 := c2 ++ u32ToNeBytes be samplesBytes.length
            if env.wOk 3 = false then (.error .ioFailure, some c3)
            else (.ok (), some (c3 ++ samplesBytes))

/-- A byte-range view helper: `n` bytes starting at offset `off`. -/
def subBytes (l : List Nat) (off n : Nat) : List Nat := (l.drop off).take n

/-- Little-endian field of `n` bytes at offset `off`. -/
def fieldLE (l : List Nat) (off n : Nat) : Nat := leDecode (subBytes l off n)

/-- Parsed format descriptor (`FmtChunk`, modelled from spec §3/§6; the
struct lives in the missing `header.rs`). -/
structure FmtChunk : Type where
  formatTag : Nat
  nChannels : Nat
  sampleRate : Nat
  byteRate : Nat
  blockAlign : Nat
  bitsPerSample : Nat
deriving DecidableEq

/-- Modelled from the spec (§4.1): parse the body of a "fmt " chunk with
declared size `size`.  Sizes 16/18/40 are accepted; only the first 16 bytes
are required for decoding; for size 40 (extensible) the sub-format code at
offset 24 of the body replaces the format tag.  A declared size below 16 is
rejected as unsupported; a body shorter than the declared size is a short
read (`ioFailure`). -/
def parseFmtBody (body : List Nat) (size : Nat) : Except WaversError FmtChunk :=
  if size < 16 then .error .unsupportedFormat
  else if body.length < size then .error .ioFailure
  else
    let tag := if size = 40 then fieldLE body 24 2 else fieldLE body 0 2
    .ok ⟨tag, fieldLE body 2 2, fieldLE body 4 4, fieldLE body 8 4,
         fieldLE body 12 2, fieldLE body 14 2⟩

/-- Modelled from the spec (§4.1 `ScanChunks`): scan the chunk sequence after
the 12-byte RIFF/WAVE preamble.  Each step reads a 4-byte ASCII id and a
4-byte little-endian size; a "fmt " chunk not yet seen is parsed; a "data"
chunk ends the scan, recording the bytes after its header and its declared
size (the payload is not consumed); any other chunk is skipped by its size
rounded up to an even byte count; end of file while still seeking a chunk is
`missingChunk` naming the missing one (the same answer is given for a data
chunk found before any format chunk, the stricter of the two orderings the
spec allows).  The fuel argument only makes the recursion structural; it is
called with more fuel than bytes, and every step consumes at least 8 bytes,
so the fuel never reaches 0. -/
def scanFuel : Nat → List Nat → Option FmtChunk → Except WaversError (FmtChunk × List Nat × Nat)
  | 0, _, fc => .error (.missingChunk (if fc.isSome then .data else .fmt))
  | f + 1, rest, fc =>
    if rest.length < 8 then .error (.missingChunk (if fc.isSome then .data else .fmt))
    else
      let cid := rest.take 4
      let csize := fieldLE rest 4 4
      let body := rest.drop 8
      if cid = DATA then
        match fc with
        | some fmtc => .ok (fmtc, body, csize)
        | none => .error (.missingChunk .fmt)
      else if cid = FMTID ∧ fc = none then
        match parseFmtBody body csize with
        | .error e => .error e
        | .ok fmtc => scanFuel f (body.drop (csize + csize % 2)) (some fmtc)
      else scanFuel f (body.drop (csize + csize % 2)) fc

/-- Modelled from the spec (§3 `WavHandle`): the header-only handle produced
by `Wav::<T>::from_path` — the parsed format descriptor, the file bytes
after the data-chunk header, the declared payload length, and the requested
working kind `T`. -/
structure Wav : Type where
  targetKind : WavType
  fmt : FmtChunk
  dataBytes : List Nat
  dataLen : Nat
deriving DecidableEq

/-- Modelled from the spec (§4.1): `Wav::<T>::from_path` — validate the RIFF
magic (first 4 bytes), skip the informational 4-byte size, validate the WAVE
magic (bytes 8..12), then scan the chunks; a file too short for either magic
fails the corresponding comparison.  Never reads the payload. -/
def Wav.fromPath (t : WavType) (file : List Nat) : Except WaversError Wav :=
  if file.take 4 ≠ RIFFID then .error .invalidContainer
  else if (file.drop 8).take 4 ≠ WAVEID then .error .invalidContainer
  else
    match scanFuel (file.length + 1) (file.drop 12) none with
    | .error e => .error e
    | .ok (f, body, len) => .ok ⟨t, f, body, len⟩

/-- Modelled from the spec (§7 `UnsupportedFormat`): resolve a parsed format
descriptor to one of the four supported kinds from its format tag and bits
per sample. -/
def wavTypeOfFmt (f : FmtChunk) : Except WaversError WavType :=
  if f.formatTag = 1 ∧ f.bitsPerSample = 16 then .ok .i16
  else if f.formatTag = 1 ∧ f.bitsPerSample = 32 then .ok .i32
  else if f.formatTag = 3 ∧ f.bitsPerSample = 32 then .ok .f32
  else if f.formatTag = 3 ∧ f.bitsPerSample = 64 then .ok .f64
  else .error .unsupportedFormat

/-- Modelled from the spec (§4.2/§4.3): decoding a payload stored as kind
`src` into the requested kind `dst` applies the conversion matrix
element-wise.  The exact-value semantics of that matrix is modelled below
(`convertTo` on rationals); at the stored-bit-pattern level IEEE float
patterns are not interpreted by this development, so the cross-kind branch
is represented only as truncation to the destination width — none of the
claims below exercises it (they read back at the kind that was written,
where `Wav.read` reinterprets without conversion). -/
def convertPattern (src dst : WavType) (x : Nat) : Nat :=
  if src = dst then x else x % 2 ^ (8 * dst.width)

/-- Modelled from the spec (§4.3 Read): read exactly `dataLen` payload bytes
(a shorter payload is a failed exact read, `ioFailure`), decode them at the
file's native kind, and reinterpret (same kind) or convert (different kind)
to the handle's working kind. -/
def Wav.read (w : Wav) : Except WaversError (List Nat) :=
  match wavTypeOfFmt w.fmt with
  | .error e => .error e
  | .ok native =>
    if w.dataBytes.length < w.dataLen then .error .ioFailure
    else
      let pats := samplesOfBytes native.width (w.dataBytes.take w.dataLen)
      if native = w.targetKind then .ok pats
      else .ok (pats.map (convertPattern native w.targetKind))

/-- Modelled from the spec (§4.3 derived accessors): the sample rate comes
from the parsed format descriptor alone. -/
def Wav.sampleRate (w : Wav) : Nat := w.fmt.sampleRate

/-- Shallow embedding of the top-level `read` (src/lib.rs:164-179): open a
header-only handle with `Wav::from_path`, read the payload with
`Wav::read`, pair the samples with `Wav::sample_rate`; each step's typed
error propagates via `?`. -/
def wavers.read (t : WavType) (file : List Nat) : Except WaversError (List Nat × Nat) :=
  match Wav.fromPath t file with
  | .error e => .error e
  | .ok w =>
    match w.read with
    | .error e => .error e
    | .ok s => .ok (s, w.sampleRate)

/-- Truncation toward zero of a rational, the rounding used when a scaled
sample is narrowed to an integer kind. -/
def truncQ (x : ℚ) : ℤ := if 0 ≤ x then ⌊x⌋ else ⌈x⌉

/-- Clamp `x` into `[lo, hi]`. -/
def clampQ (lo hi x : ℚ) : ℚ := max lo (min hi x)

/-- Maximum-magnitude constant of an integer kind (`i16::MAX`, `i32::MAX`);
0 for the float kinds, which have no such constant. -/
def intMaxOf : WavType → ℤ
  | .i16 => 32767
  | .i32 => 2147483647
  | .f32 => 0
  | .f64 => 0

/-- Whether the kind is an integer kind. -/
def WavType.isIntKind : WavType → Bool
  | .i16 => true
  | .i32 => true
  | .f32 => false
  | .f64 => false

/-- Whether the kind is a float kind. -/
def WavType.isFloatKind : WavType → Bool
  | .i16 => false
  | .i32 => false
  | .f32 => true
  | .f64 => true

/-- Modelled from the spec (§4.2 Float → integer): multiply by the
destination kind's maximum magnitude `m`, clamp the product to the
destination's representable range `[-(m+1), m]`, then truncate toward zero.
Float arithmetic is modelled exactly, on rationals. -/
def floatToIntQ (m : ℤ) (x : ℚ) : ℚ :=
  (truncQ (clampQ (-((m : ℚ) + 1)) (m : ℚ) (x * (m : ℚ))) : ℚ)

/-- Modelled from the spec (§4.2 Integer → integer): scale by the ratio of
the two kinds' maximum magnitudes, truncating toward zero and saturating at
the destination's range boundaries (§4.2/§7: results may saturate; the exact
narrowing rounding rule is the spec's open question §9, resolved here as
truncation toward zero, the rule §4.2 names first). -/
def intToIntQ (sm dm : ℤ) (x : ℚ) : ℚ :=
  (truncQ (clampQ (-((dm : ℚ) + 1)) (dm : ℚ) (x * (dm : ℚ) / (sm : ℚ))) : ℚ)

/-- Modelled from the spec (§4.2 Integer → float): divide by the integer
kind's maximum magnitude. -/
def intToFloatQ (sm : ℤ) (x : ℚ) : ℚ := x / (sm : ℚ)

/-- Modelled from the spec (§4.2): the full 16-entry pairwise conversion
matrix `ConvertTo` over the four kinds, on exact (rational) sample values.
Identity pairs copy, float↔float pairs are direct numeric casts (no
rescaling — exact here), and the int/float pairs scale by the relevant
maximum magnitude. -/
def convertTo : WavType → WavType → ℚ → ℚ
  | .i16, .i16, x => x
  | .i16, .i32, x => intToIntQ 32767 2147483647 x
  | .i16, .f32, x => intToFloatQ 32767 x
  | .i16, .f64, x => intToFloatQ 32767 x
  | .i32, .i16, x => intToIntQ 2147483647 32767 x
  | .i32, .i32, x => x
  | .i32, .f32, x => intToFloatQ 2147483647 x
  | .i32, .f64, x => intToFloatQ 2147483647 x
  | .f32, .i16, x => floatToIntQ 32767 x
  | .f32, .i32, x => floatToIntQ 2147483647 x
  | .f32, .f32, x => x
  | .f32, .f64, x => x
  | .f64, .i16, x => floatToIntQ 32767 x
  | .f64, .i32, x => floatToIntQ 2147483647 x
  | .f64, .f32, x => x
  | .f64, .f64, x => x

/-- Modelled from the spec (§4.2): `ConvertSlice` — conversion of a whole
buffer is the element-wise application of the pairwise rule. -/
def convertSlice (src dst : WavType) (l : List ℚ) : List ℚ :=
  l.map (convertTo src dst)

/-- The domain of sample values of a kind: integer kinds hold integers in
`[-(max+1), max]`; float kind values are unconstrained rationals in this
model. -/
def validSample : WavType → ℚ → Prop
  | .i16, x => x.den = 1 ∧ -32768 ≤ x ∧ x ≤ 32767
  | .i32, x => x.den = 1 ∧ -2147483648 ≤ x ∧ x ≤ 2147483647
  | .f32, _ => True
  | .f64, _ => True

theorem truncQ_intCast (n : ℤ) : truncQ (n : ℚ) = n := by
  unfold truncQ
  split
  · exact Int.floor_intCast n
  · exact Int.ceil_intCast n

theorem le_clampQ (lo hi x : ℚ) : lo ≤ clampQ lo hi x := le_max_left _ _

theorem clampQ_le {lo hi : ℚ} (h : lo ≤ hi) (x : ℚ) : clampQ lo hi x ≤ hi :=
  max_le h (min_le_left _ _)

theorem clampQ_of_ge {lo hi x : ℚ} (hlohi : lo ≤ hi) (h : hi ≤ x) :
    clampQ lo hi x = hi := by
  unfold clampQ
  rw [min_eq_left h, max_eq_right hlohi]

theorem clampQ_of_le {lo hi x : ℚ} (hlohi : lo ≤ hi) (h : x ≤ lo) :
    clampQ lo hi x = lo := by
  unfold clampQ
  rw [min_eq_right (le_trans h hlohi), max_eq_left h]

theorem truncQ_bounds {lo hi : ℤ} (hlo : lo ≤ 0) (hhi : 0 ≤ hi) {y : ℚ}
    (h1 : (lo : ℚ) ≤ y) (h2 : y ≤ (hi : ℚ)) : lo ≤ truncQ y ∧ truncQ y ≤ hi := by
  unfold truncQ
  split
  · rename_i h
    constructor
    · exact le_trans hlo (Int.le_floor.mpr (by exact_mod_cast h))
    · have := Int.floor_le_floor h2
      simpa using this
  · rename_i h
    push_neg at h
    constructor
    · have := Int.ceil_le_ceil h1
      simpa using this
    · have h0 : ⌈y⌉ ≤ (0 : ℤ) := Int.ceil_le.mpr (by exact_mod_cast le_of_lt h)
      exact le_trans h0 hhi

theorem truncQ_clampQ_mem {lo hi : ℤ} (hlo : lo ≤ 0) (hhi : 0 ≤ hi) (x : ℚ) :
    lo ≤ truncQ (clampQ (lo : ℚ) (hi : ℚ) x) ∧ truncQ (clampQ (lo : ℚ) (hi : ℚ) x) ≤ hi := by
  have hlh : (lo : ℚ) ≤ (hi : ℚ) := by exact_mod_cast le_trans hlo hhi
  exact truncQ_bounds hlo hhi (le_clampQ _ _ _) (clampQ_le hlh x)

theorem floatToIntQ_spec (m : ℤ) (hm : 0 < m) (x : ℚ) :
    (-((m : ℚ) + 1) ≤ floatToIntQ m x ∧ floatToIntQ m x ≤ (m : ℚ))
    ∧ ((m : ℚ) ≤ x * (m : ℚ) → floatToIntQ m x = (m : ℚ))
    ∧ (x * (m : ℚ) ≤ -((m : ℚ) + 1) → floatToIntQ m x = -((m : ℚ) + 1)) := by
  have hl : -((m : ℚ) + 1) = ((-(m + 1) : ℤ) : ℚ) := by push_cast; ring
  have hlo : (-(m + 1) : ℤ) ≤ 0 := by omega
  have hhi : (0 : ℤ) ≤ m := le_of_lt hm
  have hlh : -((m : ℚ) + 1) ≤ (m : ℚ) := by
    have : (0 : ℚ) < (m : ℚ) := by exact_mod_cast hm
    linarith
  refine ⟨?_, ?_, ?_⟩
  · have hmem := truncQ_clampQ_mem hlo hhi (x * (m : ℚ))
    unfold floatToIntQ
    rw [hl]
    constructor
    · exact_mod_cast hmem.1
    · exact_mod_cast hmem.2
  · intro h
    unfold floatToIntQ
    rw [clampQ_of_ge hlh h]
    exact_mod_cast congrArg (fun z : ℤ => (z : ℚ)) (truncQ_intCast m)
  · intro h
    unfold floatToIntQ
    rw [clampQ_of_le hlh h, hl]
    exact_mod_cast congrArg (fun z : ℤ => (z : ℚ)) (truncQ_intCast (-(m + 1)))

theorem intToFloatQ_spec (m : ℤ) (hm : 0 < m) (x : ℚ)
    (h1 : -((m : ℚ) + 1) ≤ x) (h2 : x ≤ (m : ℚ)) :
    -(1 + 1 / (m : ℚ)) ≤ intToFloatQ m x ∧ intToFloatQ m x ≤ 1
    ∧ (-(m : ℚ) ≤ x → -1 ≤ intToFloatQ m x) := by
  have hmq : (0 : ℚ) < (m : ℚ) := by exact_mod_cast hm
  have hne : (m : ℚ) ≠ 0 := ne_of_gt hmq
  unfold intToFloatQ
  refine ⟨?_, ?_, ?_⟩
  · have heq : -(1 + 1 / (m : ℚ)) = -((m : ℚ) + 1) / (m : ℚ) := by
      field_simp
    rw [heq]
    exact (div_le_div_iff_of_pos_right hmq).mpr h1
  · exact (div_le_one hmq).mpr h2
  · intro h
    have heq : (-1 : ℚ) = -(m : ℚ) / (m : ℚ) := by
      rw [neg_div, div_self hne]
    rw [heq]
    exact (div_le_div_iff_of_pos_right hmq).mpr h


theorem floatToIntQ_valid_i16 (y : ℚ) : validSample .i16 (floatToIntQ 32767 y) := by
  unfold floatToIntQ
  have hl : -(((32767 : ℤ) : ℚ) + 1) = (((-32768 : ℤ)) : ℚ) := by push_cast; norm_num
  rw [hl]
  have hmem := @truncQ_clampQ_mem (-32768) 32767 (by omega) (by omega) (y * ((32767 : ℤ) : ℚ))
  refine ⟨Rat.den_intCast _, ?_, ?_⟩
  · exact_mod_cast hmem.1
  · exact_mod_cast hmem.2

theorem floatToIntQ_valid_i32 (y : ℚ) : validSample .i32 (floatToIntQ 2147483647 y) := by
  unfold floatToIntQ
  have hl : -(((2147483647 : ℤ) : ℚ) + 1) = (((-2147483648 : ℤ)) : ℚ) := by push_cast; norm_num
  rw [hl]
  have hmem := @truncQ_clampQ_mem (-2147483648) 2147483647 (by omega) (by omega)
    (y * ((2147483647 : ℤ) : ℚ))
  refine ⟨Rat.den_intCast _, ?_, ?_⟩
  · exact_mod_cast hmem.1
  · exact_mod_cast hmem.2

theorem intToIntQ_valid_i16 (sm : ℤ) (y : ℚ) : validSample .i16 (intToIntQ sm 32767 y) := by
  unfold intToIntQ
  have hl : -(((32767 : ℤ) : ℚ) + 1) = (((-32768 : ℤ)) : ℚ) := by push_cast; norm_num
  rw [hl]
  have hmem := @truncQ_clampQ_mem (-32768) 32767 (by omega) (by omega)
    (y * ((32767 : ℤ) : ℚ) / ((sm : ℤ) : ℚ))
  refine ⟨Rat.den_intCast _, ?_, ?_⟩
  · exact_mod_cast hmem.1
  · exact_mod_cast hmem.2

theorem intToIntQ_valid_i32 (sm : ℤ) (y : ℚ) : validSample .i32 (intToIntQ sm 2147483647 y) := by
  unfold intToIntQ
  have hl : -(((2147483647 : ℤ) : ℚ) + 1) = (((-2147483648 : ℤ)) : ℚ) := by push_cast; norm_num
  rw [hl]
  have hmem := @truncQ_clampQ_mem (-2147483648) 2147483647 (by omega) (by omega)
    (y * ((2147483647 : ℤ) : ℚ) / ((sm : ℤ) : ℚ))
  refine ⟨Rat.den_intCast _, ?_, ?_⟩
  · exact_mod_cast hmem.1
  · exact_mod_cast hmem.2

/-- C6: for every ordered pair of the four sample kinds and every input
buffer, the buffer conversion is the element-wise application of the
pairwise rule, and the element rule is a total function on sample values:
it always returns a value of the destination kind's domain (so no input can
make it fail), even when that value saturates at the range boundaries.
Purity and absence of side effects hold by construction: `convertTo` and
`convertSlice` are plain functions into plain values, not fallible results. -/
theorem claim_C6 (src dst : WavType) (l : List ℚ) :
    convertSlice src dst l = l.map (convertTo src dst)
    ∧ ∀ x : ℚ, validSample src x → validSample dst (convertTo src dst x) := by
  refine ⟨rfl, ?_⟩
  intro x hx
  cases src <;> cases dst
  case i16.i16 => exact hx
  case i16.i32 => exact intToIntQ_valid_i32 32767 x
  case i16.f32 => exact trivial
  case i16.f64 => exact trivial
  case i32.i16 => exact intToIntQ_valid_i16 2147483647 x
  case i32.i32 => exact hx
  case i32.f32 => exact trivial
  case i32.f64 => exact trivial
  case f32.i16 => exact floatToIntQ_valid_i16 x
  case f32.i32 => exact floatToIntQ_valid_i32 x
  case f32.f32 => exact trivial
  case f32.f64 => exact trivial
  case f64.i16 => exact floatToIntQ_valid_i16 x
  case f64.i32 => exact floatToIntQ_valid_i32 x
  case f64.f32 => exact trivial
  case f64.f64 => exact trivial

/-- C6 witness: converting the f32 value 0 to i16 lands in the i16 domain. -/
theorem claim_C6_witness : validSample .i16 (convertTo .f32 .i16 0) :=
  (claim_C6 .f32 .i16 [0]).2 0 trivial

/-- C7: for every float sample value and every integer destination kind, the
conversion multiplies the value by the destination's maximum magnitude and
clamps the product to the destination's representable range before
truncating, so the result always lies in `[-(max+1), max]` and an
out-of-range product saturates exactly at the maximum (resp. minimum)
rather than wrapping or erroring. -/
theorem claim_C7 (src dst : WavType) (hsrc : src.isFloatKind = true)
    (hdst : dst.isIntKind = true) (x : ℚ) :
    convertTo src dst x = floatToIntQ (intMaxOf dst) x
    ∧ ((-((intMaxOf dst : ℤ) : ℚ) - 1 ≤ convertTo src dst x
          ∧ convertTo src dst x ≤ ((intMaxOf dst : ℤ) : ℚ))
        ∧ (((intMaxOf dst : ℤ) : ℚ) ≤ x * ((intMaxOf dst : ℤ) : ℚ) →
            convertTo src dst x = ((intMaxOf dst : ℤ) : ℚ))
        ∧ (x * ((intMaxOf dst : ℤ) : ℚ) ≤ -((intMaxOf dst : ℤ) : ℚ) - 1 →
            convertTo src dst x = -((intMaxOf dst : ℤ) : ℚ) - 1)) := by
  have hgen : ∀ m : ℤ, 0 < m →
      ((-(m : ℚ) - 1 ≤ floatToIntQ m x ∧ floatToIntQ m x ≤ (m : ℚ))
        ∧ ((m : ℚ) ≤ x * (m : ℚ) → floatToIntQ m x = (m : ℚ))
        ∧ (x * (m : ℚ) ≤ -(m : ℚ) - 1 → floatToIntQ m x = -(m : ℚ) - 1)) := by
    intro m hm
    have hs := floatToIntQ_spec m hm x
    have he : -((m : ℚ) + 1) = -(m : ℚ) - 1 := by ring
    rw [he] at hs
    exact hs
  cases src <;> cases dst
  case f32.i16 => exact ⟨rfl, hgen 32767 (by norm_num)⟩
  case f32.i32 => exact ⟨rfl, hgen 2147483647 (by norm_num)⟩
  case f64.i16 => exact ⟨rfl, hgen 32767 (by norm_num)⟩
  case f64.i32 => exact ⟨rfl, hgen 2147483647 (by norm_num)⟩
  all_goals first
    | exact absurd hsrc (by decide)
    | exact absurd hdst (by decide)

/-- C7 witness: the f32 value 2 (out of range) converted to i16 saturates at
the maximum 32767. -/
theorem claim_C7_witness : convertTo .f32 .i16 2 = ((32767 : ℤ) : ℚ) :=
  (claim_C7 .f32 .i16 rfl rfl 2).2.2.1 (by norm_num [intMaxOf])

/-- C8: for every integer sample value of an integer kind and every float
destination kind, the conversion is division by the source kind's
maximum-magnitude constant, and the result lies in `[-1, 1]` except for a
possible excess of at most `1/max` below `-1` reached only at the most
negative input value: every input not below `-max` lands in `[-1, 1]`
exactly. -/
theorem claim_C8 (src dst : WavType) (hsrc : src.isIntKind = true)
    (hdst : dst.isFloatKind = true) (x : ℚ) (hx : validSample src x) :
    convertTo src dst x = intToFloatQ (intMaxOf src) x
    ∧ (-(1 + 1 / ((intMaxOf src : ℤ) : ℚ)) ≤ convertTo src dst x
        ∧ convertTo src dst x ≤ 1
        ∧ (-((intMaxOf src : ℤ) : ℚ) ≤ x → -1 ≤ convertTo src dst x)) := by
  cases src <;> cases dst
  case i16.f32 =>
    obtain ⟨-, h1, h2⟩ := hx
    exact ⟨rfl, intToFloatQ_spec 32767 (by norm_num) x (by push_cast; linarith)
      (by push_cast; linarith)⟩
  case i16.f64 =>
    obtain ⟨-, h1, h2⟩ := hx
    exact ⟨rfl, intToFloatQ_spec 32767 (by norm_num) x (by push_cast; linarith)
      (by push_cast; linarith)⟩
  case i32.f32 =>
    obtain ⟨-, h1, h2⟩ := hx
    exact ⟨rfl, intToFloatQ_spec 2147483647 (by norm_num) x (by push_cast; linarith)
      (by push_cast; linarith)⟩
  case i32.f64 =>
    obtain ⟨-, h1, h2⟩ := hx
    exact ⟨rfl, intToFloatQ_spec 2147483647 (by norm_num) x (by push_cast; linarith)
      (by push_cast; linarith)⟩
  all_goals first
    | exact absurd hsrc (by decide)
    | exact absurd hdst (by decide)

/-- C8 witness: the i16 value 0 converted to f32 lies below 1. -/
theorem claim_C8_witness : convertTo .i16 .f32 0 ≤ 1 :=
  (claim_C8 .i16 .f32 rfl rfl 0 (by norm_num [validSample])).2.2.1

theorem write_allOk_eq (be : Bool) (k : WavType) (samples : List Nat) (sr nc : Nat)
    (fs₀ : Option (List Nat)) :
    write .allOk be k samples sr nc fs₀ = (.ok (), some (writeFileBytes be k samples sr nc)) := by
  simp [write, WriteEnv.allOk, writeFileBytes, List.append_assoc]

theorem write_content_prefix (env : WriteEnv) (be : Bool) (k : WavType) (samples : List Nat)
    (sr nc : Nat) (fs₀ : Option (List Nat)) (h0 : env.hdrOk = true) (h1 : env.createOk = true) :
    ∀ c, (write env be k samples sr nc fs₀).2 = some c →
      ∃ d, c ++ d = writeFileBytes be k samples sr nc := by
  intro c hc
  cases hw0 : env.wOk 0 with
  | false =>
      simp [write, h0, h1, hw0] at hc
      subst hc
      exact ⟨writeFileBytes be k samples sr nc, by simp⟩
  | true =>
      cases hw1 : env.wOk 1 with
      | false =>
          simp [write, h0, h1, hw0, hw1] at hc
          subst hc
          exact ⟨DATA ++ (u32ToNeBytes be (samplesAsBytes k samples).length
              ++ samplesAsBytes k samples),
            by simp [writeFileBytes, List.append_assoc]⟩
      | true =>
          cases hw2 : env.wOk 2 with
          | false =>
              simp [write, h0, h1, hw0, hw1, hw2] at hc
              subst hc
              exact ⟨u32ToNeBytes be (samplesAsBytes k samples).length
                  ++ samplesAsBytes k samples,
                by simp [writeFileBytes, List.append_assoc]⟩
          | true =>
              cases hw3 : env.wOk 3 with
              | false =>
                  simp [write, h0, h1, hw0, hw1, hw2, hw3] at hc
                  subst hc
                  exact ⟨samplesAsBytes k samples,
                    by simp [writeFileBytes, List.append_assoc]⟩
              | true =>
                  simp [write, h0, h1, hw0, hw1, hw2, hw3] at hc
                  subst hc
                  exact ⟨[], by simp [writeFileBytes, List.append_assoc]⟩

/-- C1: a fully successful `write` leaves the target file holding exactly the
serialized RIFF+WAVE+fmt header, then the 4-byte "data" id, then a 4-byte
size field whose value is the payload byte length (samples × width), then
the raw sample bytes — nothing before, between, or after; and the model is
append-only: whatever the environment, every content the file can be left
with is a prefix of that full byte sequence, so no earlier byte is ever
rewritten. -/
theorem claim_C1 (be : Bool) (k : WavType) (samples : List Nat) (sr nc : Nat)
    (fs₀ : Option (List Nat)) (h : samples.length * k.width < 2 ^ 32) :
    write .allOk be k samples sr nc fs₀ = (.ok (), some (writeFileBytes be k samples sr nc))
    ∧ writeFileBytes be k samples sr nc
        = headerBytes k sr nc samples.length
            ++ (DATA ++ (u32ToNeBytes be (samples.length * k.width)
              ++ samplesAsBytes k samples))
    ∧ (u32ToNeBytes be (samples.length * k.width)).length = 4
    ∧ decodeNe be (u32ToNeBytes be (samples.length * k.width)) = samples.length * k.width
    ∧ (samplesAsBytes k samples).length = samples.length * k.width
    ∧ ∀ env : WriteEnv, env.hdrOk = true → env.createOk = true →
        ∀ c, (write env be k samples sr nc fs₀).2 = some c →
          ∃ d, c ++ d = writeFileBytes be k samples sr nc := by
  refine ⟨write_allOk_eq be k samples sr nc fs₀, ?_, u32ToNeBytes_length be _, ?_,
    samplesAsBytes_length k samples, ?_⟩
  · simp [writeFileBytes, samplesAsBytes_length]
  · rw [decodeNe_u32ToNeBytes, Nat.mod_eq_of_lt h]
  · intro env h0 h1
    exact write_content_prefix env be k samples sr nc fs₀ h0 h1

/-- C1 witness: writing two i16 samples on a little-endian platform produces
exactly the modelled file bytes. -/
theorem claim_C1_witness :
    write .allOk false .i16 [1, 2] 8000 1 none
      = (.ok (), some (writeFileBytes false .i16 [1, 2] 8000 1)) :=
  (claim_C1 false .i16 [1, 2] 8000 1 none (by norm_num [WavType.width])).1

/-- C10: `write` builds the header before touching the filesystem, so a
header-construction failure returns the error with the target path's state
unchanged (whatever it was); a `File::create` failure likewise leaves the
state unchanged; but once creation has succeeded the target file exists on
disk afterwards no matter which later step fails, and any failing
`write_all` step makes `write` return an error while leaving the file with
the (possibly partial) content written so far. -/
theorem claim_C10 (env : WriteEnv) (be : Bool) (k : WavType) (samples : List Nat)
    (sr nc : Nat) (fs₀ : Option (List Nat)) :
    (env.hdrOk = false →
        write env be k samples sr nc fs₀ = (.error .unsupportedFormat, fs₀))
    ∧ (env.hdrOk = true → env.createOk = false →
        write env be k samples sr nc fs₀ = (.error .ioFailure, fs₀))
    ∧ (env.hdrOk = true → env.createOk = true →
        ∃ c, (write env be k samples sr nc fs₀).2 = some c)
    ∧ (env.hdrOk = true → env.createOk = true →
        (env.wOk 0 = false ∨ env.wOk 1 = false ∨ env.wOk 2 = false ∨ env.wOk 3 = false) →
        (write env be k samples sr nc fs₀).1 = .error .ioFailure) := by
  refine ⟨?_, ?_, ?_, ?_⟩
  · intro h0
    simp [write, h0]
  · intro h0 h1
    simp [write, h0, h1]
  · intro h0 h1
    cases hw0 : env.wOk 0 <;> cases hw1 : env.wOk 1 <;> cases hw2 : env.wOk 2 <;>
      cases hw3 : env.wOk 3 <;> simp [write, h0, h1, hw0, hw1, hw2, hw3]
  · intro h0 h1 hw
    cases hw0 : env.wOk 0 <;> cases hw1 : env.wOk 1 <;> cases hw2 : env.wOk 2 <;>
      cases hw3 : env.wOk 3 <;>
        simp [write, h0, h1, hw0, hw1, hw2, hw3] <;>
          simp [hw0, hw1, hw2, hw3] at hw

/-- C10 witness: with header construction failing, `write` errors and the
absent target file stays absent; with everything up to the third
`write_all` succeeding, `write` errors and the file exists. -/
theorem claim_C10_witness :
    write ⟨false, true, fun _ => true⟩ false .i16 [1] 8000 1 none
      = (.error .unsupportedFormat, none)
    ∧ (write ⟨true, true, fun i => i < 3⟩ false .i16 [1] 8000 1 none).1
      = .error .ioFailure := by
  constructor
  · exact (claim_C10 ⟨false, true, fun _ => true⟩ false .i16 [1] 8000 1 none).1 rfl
  · exact (claim_C10 ⟨true, true, fun i => decide (i < 3)⟩ false .i16 [1] 8000 1 none).2.2.2
      rfl rfl (.inr (.inr (.inr (by decide))))

/-- C2: the data-chunk size field is written with `to_ne_bytes`
(src/lib.rs:230), i.e. in the platform's native byte order, not always
little-endian: on a big-endian platform the four size-field bytes of the
file written for two i16 samples (payload length 4) are `[0,0,0,4]`, which
is not the little-endian encoding `[4,0,0,0]` of 4; the claim's "on every
platform" therefore fails, while the WAV container (spec §6) requires
little-endian. -/
theorem claim_C2 :
    ((writeFileBytes true .i16 [1, 2] 8000 1).drop 40).take 4 = [0, 0, 0, 4]
    ∧ ((writeFileBytes false .i16 [1, 2] 8000 1).drop 40).take 4 = [4, 0, 0, 0]
    ∧ u32ToNeBytes true 4 ≠ leBytes 4 4 := by
  refine ⟨?_, ?_, ?_⟩ <;> decide

/-- C3 counterexample: `write` performs no check that the sample count is a
multiple of the channel count; writing one i16 sample with a declared
channel count of 2 yields a payload of 2 bytes, which is not a multiple of
the block alignment `2 * width(i16) = 4`, refuting the claimed invariant
for that file. -/
theorem claim_C3_counterexample :
    writeFileBytes false .i16 [0] 8000 2
      = headerBytes .i16 8000 2 1
          ++ (DATA ++ (u32ToNeBytes false 2 ++ samplesAsBytes .i16 [0]))
    ∧ (samplesAsBytes .i16 [0]).length = 2
    ∧ ¬ (2 * WavType.width .i16 ∣ (samplesAsBytes .i16 [0]).length) := by
  refine ⟨?_, ?_, ?_⟩ <;> decide

/-- C3 (amended): when the channel count divides the number of samples, the
payload written by `write` has byte length `(N / C) * (C * width k)` with
`(N / C) * C = N`, i.e. it is frame-aligned: an exact multiple of the block
alignment `C * width k`. -/
theorem claim_C3 (k : WavType) (C : Nat) (samples : List Nat)
    (hC : 1 ≤ C) (hdvd : C ∣ samples.length) :

    (samplesAsBytes k samples).length = (samples.length / C) * (C * k.width)
    ∧ (samples.length / C) * C = samples.length
    ∧ (C * k.width) ∣ (samplesAsBytes k samples).length := by
  have hNC : (samples.length / C) * C = samples.length := Nat.div_mul_cancel hdvd
  refine ⟨?_, hNC, ?_⟩
  · rw [samplesAsBytes_length, ← Nat.mul_assoc, hNC]
  · rw [samplesAsBytes_length]
    exact Nat.mul_dvd_mul_right hdvd k.width

/-- C3 witness: two i16 samples over one channel give a 4-byte payload,
aligned to the 2-byte block. -/
theorem claim_C3_witness :
    (samplesAsBytes .i16 [5, 6]).length = (2 / 1) * (1 * WavType.width .i16) :=
  (claim_C3 .i16 1 [5, 6] (by decide) (by decide)).1

/-- C5: the top-level `read` is exactly the composition of `Wav::from_path`,
the handle's `read()`, and pairing with `sample_rate()`: it returns `Ok`
precisely when both steps succeed, and otherwise returns the typed error of
the failing step unchanged (no retry; totality of the Lean function rules
out panics). -/
theorem claim_C5 (t : WavType) (file : List Nat) :
    (∀ e, Wav.fromPath t file = .error e → wavers.read t file = .error e)
    ∧ (∀ w, Wav.fromPath t file = .ok w →
        (∀ e, w.read = .error e → wavers.read t file = .error e)
        ∧ (∀ s, w.read = .ok s → wavers.read t file = .ok (s, w.sampleRate))) := by
  constructor
  · intro e he
    simp [wavers.read, he]
  · intro w hw
    constructor
    · intro e he
      simp [wavers.read, hw, he]
    · intro s hs
      simp [wavers.read, hw, hs]

/-- C5 witness: on the empty file, opening fails with `InvalidContainer` and
`read` returns exactly that error. -/
theorem claim_C5_witness : wavers.read .i16 [] = .error .invalidContainer :=
  (claim_C5 .i16 []).1 .invalidContainer rfl

/-- C9: opening any file that does not start with the RIFF magic followed
(after the 4-byte size field) by the WAVE magic — the zero-length file in
particular — returns `InvalidContainer`; `Wav.fromPath` is a total
function, so no input can make it panic. -/
theorem claim_C9 (t : WavType) (file : List Nat)
    (h : file = [] ∨ ¬(file.take 4 = RIFFID ∧ (file.drop 8).take 4 = WAVEID)) :
    Wav.fromPath t file = .error .invalidContainer := by
  have hbad : ¬(file.take 4 = RIFFID ∧ (file.drop 8).take 4 = WAVEID) := by
    rcases h with h | h
    · subst h
      decide
    · exact h
  unfold Wav.fromPath
  by_cases hr : file.take 4 = RIFFID
  · have hw : ¬((file.drop 8).take 4 = WAVEID) := fun hw => hbad ⟨hr, hw⟩
    simp [hr, hw]
  · simp [hr]

/-- C9 witness: the zero-length file is rejected as `InvalidContainer`. -/
theorem claim_C9_witness : Wav.fromPath .i16 [] = .error .invalidContainer :=
  claim_C9 .i16 [] (.inl rfl)

theorem fieldLE_skip (l₁ R : List Nat) {off off' n : Nat} (h : off = l₁.length + off') :
    fieldLE (l₁ ++ R) off n = fieldLE R off' n := by
  unfold fieldLE subBytes
  subst h
  rw [drop_append_plus R rfl]

theorem fieldLE_here (l₁ R : List Nat) {n : Nat} (h : l₁.length = n) :
    fieldLE (l₁ ++ R) 0 n = leDecode l₁ := by
  unfold fieldLE subBytes
  rw [List.drop_zero, take_append_exact R h]

theorem fmtChunkBytes_length (k : WavType) (sr nc : Nat) :
    (fmtChunkBytes k sr nc).length = 16 := by
  simp [fmtChunkBytes, leBytes_length]

theorem formatCode_lt (k : WavType) : k.formatCode < 256 ^ 2 := by
  cases k <;> decide

theorem bits_lt (k : WavType) : 8 * k.width < 256 ^ 2 := by
  cases k <;> decide

theorem parseFmtBody_of_written (k : WavType) (sr nc : Nat) (tail : List Nat)
    (hsr : sr < 2 ^ 32) :
    parseFmtBody (fmtChunkBytes k sr nc ++ tail) 16
      = .ok ⟨k.formatCode, nc % 2 ^ 16,  sr,
             fieldLE (fmtChunkBytes k sr nc ++ tail) 8 4,
             fieldLE (fmtChunkBytes k sr nc ++ tail) 12 2,
             8 * k.width⟩ := by
  have hlen : (fmtChunkBytes k sr nc ++ tail).length = 16 + tail.length := by
    simp [fmtChunkBytes_length]
  have hnotshort : ¬ ((fmtChunkBytes k sr nc ++ tail).length < 16) := by omega
  have hassoc : fmtChunkBytes k sr nc ++ tail
      = leBytes 2 k.formatCode ++
          (leBytes 2 nc ++
            (leBytes 4 sr ++
              (leBytes 4 (sr * (nc * k.width)) ++
                (leBytes 2 (nc * k.width) ++ (leBytes 2 (8 * k.width) ++ tail))))) := by
    simp [fmtChunkBytes, List.append_assoc]
  have e2 : ∀ y : Nat, (2 : Nat) = (leBytes 2 y).length + 0 := by
    simp [leBytes_length]
  have htag : fieldLE (fmtChunkBytes k sr nc ++ tail) 0 2 = k.formatCode := by
    rw [hassoc, fieldLE_here _ _ (leBytes_length 2 _), leDecode_leBytes,
      Nat.mod_eq_of_lt (formatCode_lt k)]
  have hnc : fieldLE (fmtChunkBytes k sr nc ++ tail) 2 2 = nc % 2 ^ 16 := by
    rw [hassoc, fieldLE_skip _ _ (e2 k.formatCode),
      fieldLE_here _ _ (leBytes_length 2 _), leDecode_leBytes]
    norm_num
  have hsr' : fieldLE (fmtChunkBytes k sr nc ++ tail) 4 4 = sr := by
    rw [hassoc,
      fieldLE_skip _ _ (show (4 : Nat) = (leBytes 2 k.formatCode).length + 2 by
        simp [leBytes_length]),
      fieldLE_skip _ _ (e2 nc),
      fieldLE_here _ _ (leBytes_length 4 _), leDecode_leBytes,
      Nat.mod_eq_of_lt (by norm_num at hsr ⊢; omega)]
  have hbits : fieldLE (fmtChunkBytes k sr nc ++ tail) 14 2 = 8 * k.width := by
    rw [hassoc,
      fieldLE_skip _ _ (show (14 : Nat) = (leBytes 2 k.formatCode).length + 12 by
        simp [leBytes_length]),
      fieldLE_skip _ _ (show (12 : Nat) = (leBytes 2 nc).length + 10 by
        simp [leBytes_length]),
      fieldLE_skip _ _ (show (10 : Nat) = (leBytes 4 sr).length + 6 by
        simp [leBytes_length]),
      fieldLE_skip _ _ (show (6 : Nat) = (leBytes 4 (sr * (nc * k.width))).length + 2 by
        simp [leBytes_length]),
      fieldLE_skip _ _ (e2 (nc * k.width)),
      fieldLE_here _ _ (leBytes_length 2 _), leDecode_leBytes,
      Nat.mod_eq_of_lt (bits_lt k)]
  unfold parseFmtBody
  rw [if_neg (by norm_num), if_neg hnotshort, if_neg (by norm_num)]
  rw [htag, hnc, hsr', hbits]

theorem scanFuel_data_step (f : Nat) (fmtc : FmtChunk) (L : Nat) (payload : List Nat)
    (hL : L < 2 ^ 32) :
    scanFuel (f + 1) (DATA ++ (leBytes 4 L ++ payload)) (some fmtc)
      = .ok (fmtc, payload, L) := by
  have hlen : (DATA ++ (leBytes 4 L ++ payload)).length = 8 + payload.length := by
    simp [DATA, leBytes_length]
    omega
  have hguard : ¬ ((DATA ++ (leBytes 4 L ++ payload)).length < 8) := by omega
  have hcid : (DATA ++ (leBytes 4 L ++ payload)).take 4 = DATA :=
    take_append_exact _ (by decide)
  have hsize : fieldLE (DATA ++ (leBytes 4 L ++ payload)) 4 4 = L := by
    rw [fieldLE_skip _ _ (show (4 : Nat) = DATA.length + 0 by decide),
      fieldLE_here _ _ (leBytes_length 4 _), leDecode_leBytes,
      Nat.mod_eq_of_lt (by norm_num at hL ⊢; omega)]
  have hbody : (DATA ++ (leBytes 4 L ++ payload)).drop 8 = payload := by
    rw [show (8 : Nat) = DATA.length + 4 by decide, drop_append_plus _ rfl,
      drop_append_exact _ (leBytes_length 4 L)]
  simp only [scanFuel, hguard, if_false, hcid, hsize, hbody, if_pos rfl, eq_self_iff_true,
    if_true]

theorem scanFuel_fmt_step (f : Nat) (k : WavType) (sr nc : Nat) (tail : List Nat)
    (hsr : sr < 2 ^ 32) :
    scanFuel (f + 1) (FMTID ++ (leBytes 4 16 ++ (fmtChunkBytes k sr nc ++ tail))) none
      = scanFuel f tail
          (some ⟨k.formatCode, nc % 2 ^ 16, sr,
            fieldLE (fmtChunkBytes k sr nc ++ tail) 8 4,
            fieldLE (fmtChunkBytes k sr nc ++ tail) 12 2,
            8 * k.width⟩) := by
  have hlen : (FMTID ++ (leBytes 4 16 ++ (fmtChunkBytes k sr nc ++ tail))).length
      = 24 + tail.length := by
    simp [FMTID, leBytes_length, fmtChunkBytes_length]
    omega
  have hguard : ¬ ((FMTID ++ (leBytes 4 16 ++ (fmtChunkBytes k sr nc ++ tail))).length < 8) := by
    omega
  have hcid : (FMTID ++ (leBytes 4 16 ++ (fmtChunkBytes k sr nc ++ tail))).take 4 = FMTID :=
    take_append_exact _ (by decide)
  have hsize : fieldLE (FMTID ++ (leBytes 4 16 ++ (fmtChunkBytes k sr nc ++ tail))) 4 4 = 16 := by
    rw [fieldLE_skip _ _ (show (4 : Nat) = FMTID.length + 0 by decide),
      fieldLE_here _ _ (leBytes_length 4 _), leDecode_leBytes]
    norm_num
  have hbody : (FMTID ++ (leBytes 4 16 ++ (fmtChunkBytes k sr nc ++ tail))).drop 8
      = fmtChunkBytes k sr nc ++ tail := by
    rw [show (8 : Nat) = FMTID.length + 4 by decide, drop_append_plus _ rfl,
      drop_append_exact _ (leBytes_length 4 16)]
  have hskip : (fmtChunkBytes k sr nc ++ tail).drop (16 + 16 % 2) = tail := by
    rw [show (16 + 16 % 2 : Nat) = 16 by norm_num,
      drop_append_exact _ (fmtChunkBytes_length k sr nc)]
  have hne : ¬ (FMTID = DATA) := by decide
  simp only [scanFuel, hguard, if_false, hcid, hsize, hbody, hne, if_pos rfl,
    parseFmtBody_of_written k sr nc tail hsr, hskip, and_true, and_self, if_true,
    Option.isSome_none]

theorem wavTypeOfFmt_written (k : WavType) (nch sr br ba : Nat) :
    wavTypeOfFmt ⟨k.formatCode, nch, sr, br, ba, 8 * k.width⟩ = .ok k := by
  cases k <;> simp [wavTypeOfFmt, WavType.formatCode, WavType.width]

/-- C4 (amended): on a little-endian platform — where `to_ne_bytes` agrees
with the little-endian order the container requires — writing any valid
sample buffer of kind `T` and opening and reading the produced file back as
the same kind `T` succeeds and returns exactly the original stored values
(bit-identical, hence trivially within floating-point rounding for the
float kinds) together with the original sample rate. -/
theorem claim_C4 (k : WavType) (samples : List Nat) (sr nc : Nat)
    (hs : ∀ x ∈ samples, x < 256 ^ k.width)
    (hL : samples.length * k.width < 2 ^ 32)
    (hsr : sr < 2 ^ 32) :
    wavers.read k (writeFileBytes false k samples sr nc) = .ok (samples, sr) := by
  have hpayLen : (samplesAsBytes k samples).length = samples.length * k.width :=
    samplesAsBytes_length k samples
  have hL' : (samplesAsBytes k samples).length < 2 ^ 32 := by rw [hpayLen]; exact hL
  have hfile : writeFileBytes false k samples sr nc
      = RIFFID ++ (leBytes 4 (36 + samples.length * k.width)
          ++ (WAVEID ++ (FMTID ++ (leBytes 4 16 ++ (fmtChunkBytes k sr nc
            ++ (DATA ++ (leBytes 4 (samplesAsBytes k samples).length
              ++ samplesAsBytes k samples))))))) := by
    simp [writeFileBytes, headerBytes, u32ToNeBytes, samplesAsBytes_length,
      List.append_assoc]
  have hriff : (writeFileBytes false k samples sr nc).take 4 = RIFFID := by
    rw [hfile]
    exact take_append_exact _ (by decide)
  have hwave : ((writeFileBytes false k samples sr nc).drop 8).take 4 = WAVEID := by
    rw [hfile, show (8 : Nat) = RIFFID.length + 4 by decide, drop_append_plus _ rfl,
      drop_append_exact _ (leBytes_length 4 _)]
    exact take_append_exact _ (by decide)
  have hdrop12 : (writeFileBytes false k samples sr nc).drop 12
      = FMTID ++ (leBytes 4 16 ++ (fmtChunkBytes k sr nc
          ++ (DATA ++ (leBytes 4 (samplesAsBytes k samples).length
            ++ samplesAsBytes k samples)))) := by
    rw [hfile, show (12 : Nat) = RIFFID.length + 8 by decide, drop_append_plus _ rfl,
      show (8 : Nat) = (leBytes 4 (36 + samples.length * k.width)).length + 4 by
        simp [leBytes_length],
      drop_append_plus _ rfl, drop_append_exact _ (by decide : WAVEID.length = 4)]
  have hflen : (writeFileBytes false k samples sr nc).length
      = 44 + (samplesAsBytes k samples).length := by
    rw [hfile]
    simp [RIFFID, WAVEID, FMTID, DATA, leBytes_length, fmtChunkBytes_length]
    omega
  have hscan : scanFuel ((writeFileBytes false k samples sr nc).length + 1)
      ((writeFileBytes false k samples sr nc).drop 12) none
      = .ok (⟨k.formatCode, nc % 2 ^ 16, sr,
          fieldLE (fmtChunkBytes k sr nc
            ++ (DATA ++ (leBytes 4 (samplesAsBytes k samples).length
              ++ samplesAsBytes k samples))) 8 4,
          fieldLE (fmtChunkBytes k sr nc
            ++ (DATA ++ (leBytes 4 (samplesAsBytes k samples).length
              ++ samplesAsBytes k samples))) 12 2,
          8 * k.width⟩,
          samplesAsBytes k samples, (samplesAsBytes k samples).length) := by
    rw [hflen, hdrop12, scanFuel_fmt_step _ k sr nc _ hsr,
      show 44 + (samplesAsBytes k samples).length
        = (43 + (samplesAsBytes k samples).length) + 1 by omega,
      scanFuel_data_step _ _ _ _ hL']
  have hfrom : Wav.fromPath k (writeFileBytes false k samples sr nc)
      = .ok ⟨k, ⟨k.formatCode, nc % 2 ^ 16, sr,
          fieldLE (fmtChunkBytes k sr nc
            ++ (DATA ++ (leBytes 4 (samplesAsBytes k samples).length
              ++ samplesAsBytes k samples))) 8 4,
          fieldLE (fmtChunkBytes k sr nc
            ++ (DATA ++ (leBytes 4 (samplesAsBytes k samples).length
              ++ samplesAsBytes k samples))) 12 2,
          8 * k.width⟩,
          samplesAsBytes k samples, (samplesAsBytes k samples).length⟩ := by
    unfold Wav.fromPath
    rw [hriff, hwave, hscan]
    simp
  unfold wavers.read
  rw [hfrom]
  have hread : Wav.read ⟨k, ⟨k.formatCode, nc % 2 ^ 16, sr,
      fieldLE (fmtChunkBytes k sr nc
        ++ (DATA ++ (leBytes 4 (samplesAsBytes k samples).length
          ++ samplesAsBytes k samples))) 8 4,
      fieldLE (fmtChunkBytes k sr nc
        ++ (DATA ++ (leBytes 4 (samplesAsBytes k samples).length
          ++ samplesAsBytes k samples))) 12 2,
      8 * k.width⟩,
      samplesAsBytes k samples, (samplesAsBytes k samples).length⟩ = .ok samples := by
    unfold Wav.read
    rw [wavTypeOfFmt_written]
    simp only [lt_irrefl, if_false, List.take_length, if_pos rfl, if_true,
      samplesOfBytes_samplesAsBytes k samples hs]
  simp only [hread, Wav.sampleRate]

/-- C4 witness: two i16 samples written at 8000 Hz mono on a little-endian
platform read back exactly. -/
theorem claim_C4_witness :
    wavers.read .i16 (writeFileBytes false .i16 [1, 2] 8000 1) = .ok ([1, 2], 8000) :=
  claim_C4 .i16 [1, 2] 8000 1 (by decide) (by decide) (by decide)

/-- C4 counterexample: on a big-endian platform the size field is written in
native (big-endian) order while the container is parsed little-endian, so
the same one-sample i16 file that round-trips on a little-endian platform
fails to read back (the byte-swapped size field makes the exact payload
read run past the end of file). -/
theorem claim_C4_counterexample :
    wavers.read .i16 (writeFileBytes true .i16 [1] 8000 1) = .error .ioFailure
    ∧ wavers.read .i16 (writeFileBytes false .i16 [1] 8000 1) = .ok ([1], 8000) := by
  exact ⟨rfl, rfl⟩
